import Mathlib

/-!
Verification of the virtual-scroll grid component
(`packages/lexical-playground/src/nodes/GridComponent.tsx` and the
`GridNode` decorator node).

The TypeScript code is shallowly embedded: JS numbers that are used as
integers are modelled by `Int`; `Math.floor(a / b)` on integers is
`Int.fdiv`, and `Math.ceil(a / b)` is `-((-a).fdiv b)`; a JS `Set`
(insertion ordered, deduplicating) is modelled by a `List` built with
an add-if-new operation when insertion order matters, and by `Finset`
for the page-state bookkeeping; `undefined`-holes in the row array are
`Option`.
-/

namespace Grid

/-- `Math.ceil(a / b)` for integer arguments, `b > 0`:
the negated floor division of the negation. -/
def jsCeilDiv (a b : Int) : Int := -((-a).fdiv b)

/-- The visible row range `{startIndex, endIndex}` (inclusive). -/
structure VisibleRange where
  startIndex : Int
  endIndex : Int
  deriving DecidableEq, Repr

/-- `calculateVisibleRange` from `useVirtualScroll`
(GridComponent.tsx lines 298-313):
`startIndex = max(0, floor(scrollTop / rowHeight) - overscan)`,
`endIndex = min(totalRows - 1, ceil((scrollTop + containerHeight) / rowHeight) + overscan)`. -/
def calculateVisibleRange (totalRows containerHeight rowHeight overscan : Int)
    (currentScrollTop : Int) : VisibleRange :=
  let lastIndex := totalRows - 1
  let startIndex := max 0 (currentScrollTop.fdiv rowHeight - overscan)
  let endIndex :=
    min lastIndex (jsCeilDiv (currentScrollTop + containerHeight) rowHeight + overscan)
  { startIndex := startIndex, endIndex := endIndex }

/-- Virtual-scroll configuration constants of `GridComponent`
(GridComponent.tsx lines 370-374). -/
def gridContainerHeight : Int := 400

/-- Row height constant of `GridComponent`. -/
def gridRowHeight : Int := 60

/-- Overscan constant of `GridComponent`. -/
def gridOverscan : Int := 5

/-- Page size constant of `GridComponent`. -/
def gridPageSize : Int := 20

/-- Throttle interval passed to `useThrottle` (GridComponent.tsx line 324). -/
def scrollThrottleDelay : Int := 100

/-- The visible range computed on initial mount: the mount effect of
`useVirtualScroll` calls `calculateVisibleRange(0)` with the component's
constants.  No validation of `totalRows` (or of the constant `pageSize`,
`rowHeight`) happens anywhere on this path. -/
def gridInitialRange (totalRows : Int) : VisibleRange :=
  calculateVisibleRange totalRows gridContainerHeight gridRowHeight gridOverscan 0

/-- `prefetchPages = 2` from `useGridDataFetching` (GridComponent.tsx line 104). -/
def prefetchPages : Int := 2

/-- The inclusive integer range `[lo, hi]` as a list (a JS
`for (p = lo; p <= hi; p++)` loop). -/
def intRange (lo hi : Int) : List Int :=
  (List.range (hi + 1 - lo).toNat).map (fun i : Nat => lo + (i : Int))

/-- `Set.prototype.add`: append the element if it is not already present
(JS sets are insertion-ordered and deduplicating). -/
def setAdd (l : List Int) (x : Int) : List Int :=
  if x ∈ l then l else l ++ [x]

/-- The `requiredPages` memo of `useGridDataFetching`
(GridComponent.tsx lines 107-139): visible pages, then the upper
prefetch pages (kept if `>= 0`), then the lower prefetch pages
(kept if `<= maxPage`), collected into a JS `Set`. -/
def requiredPages (vr : VisibleRange) (pageSize totalRows : Int) : List Int :=
  let startPage := vr.startIndex.fdiv pageSize
  let endPage := vr.endIndex.fdiv pageSize
  let visible := intRange startPage endPage
  let upper := (intRange (startPage - prefetchPages) (startPage - 1)).filter
    (fun p => decide (0 ≤ p))
  let maxPage := (totalRows - 1).fdiv pageSize
  let lower := (intRange (endPage + 1) (endPage + prefetchPages)).filter
    (fun p => decide (p ≤ maxPage))
  lower.foldl setAdd (upper.foldl setAdd (visible.foldl setAdd []))

/-- `getPagePriority` from `useGridDataFetching`
(GridComponent.tsx lines 142-161): `0` for pages inside the visible page
span, `1` for the two adjacent pages, `2` otherwise. -/
def getPagePriority (vr : VisibleRange) (pageSize pageIndex : Int) : Int :=
  let startPage := vr.startIndex.fdiv pageSize
  let endPage := vr.endIndex.fdiv pageSize
  if startPage ≤ pageIndex ∧ pageIndex ≤ endPage then 0
  else if pageIndex = startPage - 1 ∨ pageIndex = endPage + 1 then 1
  else 2

lemma mem_setAdd {l : List Int} {x a : Int} : a ∈ setAdd l x ↔ a ∈ l ∨ a = x := by
  unfold setAdd
  split
  · next hx => exact ⟨Or.inl, fun h => h.elim id (fun e => by rw [e]; exact hx)⟩
  · simp [List.mem_append]

lemma nodup_setAdd {l : List Int} (h : l.Nodup) (x : Int) : (setAdd l x).Nodup := by
  unfold setAdd
  split
  · exact h
  · simpa [List.nodup_append, h] using (by assumption : ¬ x ∈ l)

lemma mem_foldl_setAdd (xs : List Int) :
    ∀ (l : List Int) (a : Int), a ∈ xs.foldl setAdd l ↔ a ∈ l ∨ a ∈ xs := by
  induction xs with
  | nil => intro l a; simp
  | cons x xs ih =>
    intro l a
    rw [List.foldl_cons, ih, mem_setAdd]
    simp
    tauto

lemma nodup_foldl_setAdd (xs : List Int) :
    ∀ (l : List Int), l.Nodup → (xs.foldl setAdd l).Nodup := by
  induction xs with
  | nil => intro l h; simpa using h
  | cons x xs ih =>
    intro l h
    exact ih _ (nodup_setAdd h x)

lemma mem_intRange {lo hi a : Int} : a ∈ intRange lo hi ↔ lo ≤ a ∧ a ≤ hi := by
  unfold intRange
  simp only [List.mem_map, List.mem_range]
  constructor
  · rintro ⟨i, hlt, rfl⟩
    omega
  · intro h
    exact ⟨(a - lo).toNat, by omega, by omega⟩

lemma nodup_intRange {lo hi : Int} : (intRange lo hi).Nodup := by
  unfold intRange
  refine List.Nodup.map ?_ (List.nodup_range _)
  intro i j h
  dsimp only at h
  omega

/-- For a positive divisor, floor division is bounded by the JS ceiling division. -/
lemma fdiv_le_jsCeilDiv {a b : Int} (hb : 0 < b) : a.fdiv b ≤ jsCeilDiv a b := by
  unfold jsCeilDiv
  rw [Int.fdiv_eq_ediv _ hb.le, Int.fdiv_eq_ediv _ hb.le]
  have h1 := Int.ediv_add_emod a b
  have h2 := Int.ediv_add_emod (-a) b
  have h3 : 0 ≤ a % b := Int.emod_nonneg a (by omega)
  have h4 : 0 ≤ (-a) % b := Int.emod_nonneg (-a) (by omega)
  nlinarith [h1, h2, h3, h4]

lemma jsCeilDiv_nonneg {a b : Int} (ha : 0 ≤ a) (hb : 0 < b) : 0 ≤ jsCeilDiv a b := by
  unfold jsCeilDiv
  rw [Int.fdiv_eq_ediv _ hb.le]
  have : (-a) / b ≤ 0 / b := Int.ediv_le_ediv hb (by omega)
  simpa using this

/-- C2 (corrected).  The claim quantified over every `scrollOffset ≥ 0`,
but for offsets at or beyond the content height `totalRows * rowHeight`
the returned range is inverted (`startIndex > endIndex`).  With the
additional bound `scrollOffset < totalRows * rowHeight` (a real scroll
container never exceeds it) the claimed inequalities hold:
`0 ≤ startIndex ≤ endIndex ≤ totalRows - 1`. -/
theorem calculateVisibleRange_bounds (totalRows containerHeight rowHeight overscan s : Int)
    (hs : 0 ≤ s) (hh : 0 < rowHeight) (hc : 0 < containerHeight) (ho : 0 ≤ overscan)
    (hbound : s < totalRows * rowHeight) :
    0 ≤ (calculateVisibleRange totalRows containerHeight rowHeight overscan s).startIndex ∧
    (calculateVisibleRange totalRows containerHeight rowHeight overscan s).startIndex ≤
      (calculateVisibleRange totalRows containerHeight rowHeight overscan s).endIndex ∧
    (calculateVisibleRange totalRows containerHeight rowHeight overscan s).endIndex ≤
      totalRows - 1 := by
  have hT : 0 < totalRows := by nlinarith
  unfold calculateVisibleRange
  simp only
  refine ⟨le_max_left _ _, ?_, min_le_left _ _⟩
  have hfloor : s.fdiv rowHeight < totalRows := by
    rw [Int.fdiv_eq_ediv _ hh.le]
    exact (Int.ediv_lt_iff_lt_mul hh).mpr hbound
  have hceil0 : 0 ≤ jsCeilDiv (s + containerHeight) rowHeight :=
    jsCeilDiv_nonneg (by omega) hh
  have hmono : s.fdiv rowHeight ≤ jsCeilDiv (s + containerHeight) rowHeight := by
    calc s.fdiv rowHeight ≤ (s + containerHeight).fdiv rowHeight := by
          rw [Int.fdiv_eq_ediv _ hh.le, Int.fdiv_eq_ediv _ hh.le]
          exact Int.ediv_le_ediv hh (by omega)
      _ ≤ jsCeilDiv (s + containerHeight) rowHeight := fdiv_le_jsCeilDiv hh
  apply max_le
  · apply le_min <;> omega
  · apply le_min <;> omega

/-- C2 witness: concrete instantiation of the corrected bounds. -/
theorem calculateVisibleRange_bounds_witness :
    0 ≤ (calculateVisibleRange 1000 400 60 5 3000).startIndex ∧
    (calculateVisibleRange 1000 400 60 5 3000).startIndex ≤
      (calculateVisibleRange 1000 400 60 5 3000).endIndex ∧
    (calculateVisibleRange 1000 400 60 5 3000).endIndex ≤ 1000 - 1 :=
  calculateVisibleRange_bounds 1000 400 60 5 3000 (by decide) (by decide) (by decide)
    (by decide) (by decide)

/-- C2 counterexample: with the component's own constants
(`rowHeight=60 > 0`, `containerHeight=400 > 0`, `overscan=5 ≥ 0`,
`totalRows=1000 > 0`) and `scrollOffset = 60300 ≥ 0`, the code returns
`startIndex = 1000 > endIndex = 999`, refuting the claim as stated
(which demanded `startIndex ≤ endIndex` for every nonnegative offset). -/
theorem calculateVisibleRange_bounds_counterexample :
    0 ≤ (60300 : Int) ∧ 0 < (1000 : Int) ∧
    calculateVisibleRange 1000 400 60 5 60300 = ⟨1000, 999⟩ ∧
    ¬ ((calculateVisibleRange 1000 400 60 5 60300).startIndex ≤
        (calculateVisibleRange 1000 400 60 5 60300).endIndex) := by
  refine ⟨by decide, by decide, by decide, by decide⟩

/-- C9 (confirmed).  For fixed scroll offset, viewport, row height and
total row count, enlarging the overscan widens the range on both sides:
the start index is non-increasing and the end index non-decreasing. -/
theorem calculateVisibleRange_overscan_mono
    (totalRows containerHeight rowHeight s o₁ o₂ : Int) (h : o₁ ≤ o₂) :
    (calculateVisibleRange totalRows containerHeight rowHeight o₂ s).startIndex ≤
      (calculateVisibleRange totalRows containerHeight rowHeight o₁ s).startIndex ∧
    (calculateVisibleRange totalRows containerHeight rowHeight o₁ s).endIndex ≤
      (calculateVisibleRange totalRows containerHeight rowHeight o₂ s).endIndex := by
  unfold calculateVisibleRange
  simp only
  constructor
  · exact max_le_max le_rfl (by omega)
  · exact min_le_min le_rfl (by omega)

/-- C9 witness: concrete instantiation of the monotone-widening theorem. -/
theorem calculateVisibleRange_overscan_mono_witness :
    (calculateVisibleRange 1000 400 60 8 3000).startIndex ≤
      (calculateVisibleRange 1000 400 60 5 3000).startIndex ∧
    (calculateVisibleRange 1000 400 60 5 3000).endIndex ≤
      (calculateVisibleRange 1000 400 60 8 3000).endIndex :=
  calculateVisibleRange_overscan_mono 1000 400 60 3000 5 8 (by decide)

/-- C8 counterexample: nothing in `GridComponent`, `useVirtualScroll` or
`useGridDataFetching` validates its configuration.  Constructing the
component with `totalRows = 0 ≤ 0` succeeds and the initial range
computation silently returns the degenerate range `⟨0, -1⟩`
(`endIndex < startIndex`, an empty range), refuting the claim that
construction is rejected. -/
theorem gridInitialRange_counterexample :
    gridInitialRange 0 = ⟨0, -1⟩ ∧
    (gridInitialRange 0).endIndex < (gridInitialRange 0).startIndex := by
  refine ⟨by decide, by decide⟩

/-- Membership in the planned page list, by unfolding the three loops. -/
lemma mem_requiredPages {vr : VisibleRange} {pageSize totalRows a : Int} :
    a ∈ requiredPages vr pageSize totalRows ↔
      (vr.startIndex.fdiv pageSize ≤ a ∧ a ≤ vr.endIndex.fdiv pageSize) ∨
      ((vr.startIndex.fdiv pageSize - prefetchPages ≤ a ∧
          a ≤ vr.startIndex.fdiv pageSize - 1) ∧ 0 ≤ a) ∨
      ((vr.endIndex.fdiv pageSize + 1 ≤ a ∧
          a ≤ vr.endIndex.fdiv pageSize + prefetchPages) ∧
        a ≤ (totalRows - 1).fdiv pageSize) := by
  unfold requiredPages
  simp only [mem_foldl_setAdd, List.mem_filter, mem_intRange, decide_eq_true_eq,
    List.not_mem_nil, false_or]
  tauto

/-- The planned page list never holds a page index twice. -/
lemma nodup_requiredPages {vr : VisibleRange} {pageSize totalRows : Int} :
    (requiredPages vr pageSize totalRows).Nodup := by
  unfold requiredPages
  exact nodup_foldl_setAdd _ _ (nodup_foldl_setAdd _ _ (nodup_foldl_setAdd _ _ List.nodup_nil))

/-- C3 (confirmed).  For a valid visible range the planner yields each
page at most once; every page touching the visible span is present with
priority `0`; the pages `startPage - 1` and `endPage + 1` get priority
`1`; the remaining prefetch pages inside the margin get priority `2` and
are present whenever they fall inside `[0, maxPage]`. -/
theorem requiredPages_plan (vr : VisibleRange) (pageSize totalRows p : Int)
    (hps : 0 < pageSize) (h0 : 0 ≤ vr.startIndex) (h1 : vr.startIndex ≤ vr.endIndex)
    (h2 : vr.endIndex ≤ totalRows - 1) :
    (requiredPages vr pageSize totalRows).Nodup ∧
    (vr.startIndex.fdiv pageSize ≤ p → p ≤ vr.endIndex.fdiv pageSize →
      p ∈ requiredPages vr pageSize totalRows ∧ getPagePriority vr pageSize p = 0) ∧
    getPagePriority vr pageSize (vr.startIndex.fdiv pageSize - 1) = 1 ∧
    getPagePriority vr pageSize (vr.endIndex.fdiv pageSize + 1) = 1 ∧
    ((vr.startIndex.fdiv pageSize - prefetchPages ≤ p ∧
        p < vr.startIndex.fdiv pageSize - 1) ∨
     (vr.endIndex.fdiv pageSize + 1 < p ∧
        p ≤ vr.endIndex.fdiv pageSize + prefetchPages) →
      getPagePriority vr pageSize p = 2 ∧
      (0 ≤ p → p ≤ (totalRows - 1).fdiv pageSize →
        p ∈ requiredPages vr pageSize totalRows)) := by
  have hprio : ∀ q, getPagePriority vr pageSize q =
      if vr.startIndex.fdiv pageSize ≤ q ∧ q ≤ vr.endIndex.fdiv pageSize then 0
      else if q = vr.startIndex.fdiv pageSize - 1 ∨
          q = vr.endIndex.fdiv pageSize + 1 then 1
      else 2 := fun q => rfl
  have hSPEP : vr.startIndex.fdiv pageSize ≤ vr.endIndex.fdiv pageSize := by
    rw [Int.fdiv_eq_ediv _ hps.le, Int.fdiv_eq_ediv _ hps.le]
    exact Int.ediv_le_ediv hps h1
  refine ⟨nodup_requiredPages, ?_, ?_, ?_, ?_⟩
  · intro hsp hep
    refine ⟨mem_requiredPages.mpr (Or.inl ⟨hsp, hep⟩), ?_⟩
    rw [hprio]
    rw [if_pos ⟨hsp, hep⟩]
  · rw [hprio]
    rw [if_neg (by omega), if_pos (Or.inl rfl)]
  · rw [hprio]
    rw [if_neg (by omega), if_pos (Or.inr rfl)]
  · intro hmargin
    constructor
    · rw [hprio]
      rw [if_neg (by omega), if_neg (by unfold prefetchPages at hmargin; omega)]
    · intro hge hle
      refine mem_requiredPages.mpr ?_
      rcases hmargin with h | h
      · exact Or.inr (Or.inl ⟨⟨h.1, by omega⟩, hge⟩)
      · exact Or.inr (Or.inr ⟨⟨by omega, h.2⟩, hle⟩)

/-- C3 witness: the planner spec at the mount range `⟨0, 12⟩` of the
reference configuration, instantiated at page `p = 2`. -/
theorem requiredPages_plan_witness :
    (requiredPages ⟨0, 12⟩ 20 1000).Nodup ∧
    ((0 : Int).fdiv 20 ≤ 2 → (2 : Int) ≤ (12 : Int).fdiv 20 →
      (2 : Int) ∈ requiredPages ⟨0, 12⟩ 20 1000 ∧ getPagePriority ⟨0, 12⟩ 20 2 = 0) ∧
    getPagePriority ⟨0, 12⟩ 20 ((0 : Int).fdiv 20 - 1) = 1 ∧
    getPagePriority ⟨0, 12⟩ 20 ((12 : Int).fdiv 20 + 1) = 1 ∧
    (((0 : Int).fdiv 20 - prefetchPages ≤ 2 ∧ (2 : Int) < (0 : Int).fdiv 20 - 1) ∨
     ((12 : Int).fdiv 20 + 1 < 2 ∧ (2 : Int) ≤ (12 : Int).fdiv 20 + prefetchPages) →
      getPagePriority ⟨0, 12⟩ 20 2 = 2 ∧
      ((0 : Int) ≤ 2 → (2 : Int) ≤ (999 : Int).fdiv 20 →
        (2 : Int) ∈ requiredPages ⟨0, 12⟩ 20 1000)) :=
  requiredPages_plan ⟨0, 12⟩ 20 1000 2 (by decide) (by decide) (by decide) (by decide)

/-- C1 counterexample: on initial mount with
`totalRows=1000, pageSize=20, rowHeight=60, containerHeight=400, overscan=5`
the code computes the visible range `[0, 12]`, not the claimed `[0, 16]`
(`ceil(400/60) + 5 = 12`), and page `1 = endPage + 1` receives priority
`1` ("adjacent"), not the claimed `2`. -/
theorem scenarioA_counterexample :
    (calculateVisibleRange 1000 400 60 5 0).endIndex = 12 ∧
    (calculateVisibleRange 1000 400 60 5 0).endIndex ≠ 16 ∧
    getPagePriority (calculateVisibleRange 1000 400 60 5 0) 20 1 = 1 ∧
    getPagePriority (calculateVisibleRange 1000 400 60 5 0) 20 1 ≠ 2 := by
  refine ⟨by decide, by decide, by decide, by decide⟩

/-- C1 (corrected).  Scenario A as the code actually behaves: on initial
mount (`scrollOffset = 0`) the visible range is `[0, 12]`; the required
page set is exactly `{0, 1, 2}` (in that order); page `0` has priority
`0`, page `1` — adjacent — has priority `1`, page `2` has priority `2`;
and no page below `0` is requested. -/
theorem scenarioA :
    calculateVisibleRange 1000 400 60 5 0 = ⟨0, 12⟩ ∧
    requiredPages (calculateVisibleRange 1000 400 60 5 0) 20 1000 = [0, 1, 2] ∧
    getPagePriority (calculateVisibleRange 1000 400 60 5 0) 20 0 = 0 ∧
    getPagePriority (calculateVisibleRange 1000 400 60 5 0) 20 1 = 1 ∧
    getPagePriority (calculateVisibleRange 1000 400 60 5 0) 20 2 = 2 ∧
    (requiredPages (calculateVisibleRange 1000 400 60 5 0) 20 1000).all
      (fun p => decide (0 ≤ p)) = true := by
  refine ⟨by decide, by decide, by decide, by decide, by decide, by decide⟩

/-- `GridCell = string | number` (GridComponent.tsx line 16). -/
inductive GridCell where
  | str : String → GridCell
  | num : Int → GridCell
  deriving DecidableEq, Repr

/-- `GridCellData` (GridComponent.tsx lines 18-21). -/
structure GridCellData where
  id : String
  value : GridCell
  deriving DecidableEq, Repr

/-- `GridRowData` (GridComponent.tsx lines 23-26). -/
structure GridRowData where
  id : String
  cells : List GridCellData
  deriving DecidableEq, Repr

/-- `GridData = GridRowData[]` (GridComponent.tsx line 28). -/
def GridData := List GridRowData

/-- The state owned by `useGridDataFetching` (GridComponent.tsx lines
96-101): the row store (`Array(totalRows).fill(undefined)` with holes as
`none`) and the three page-index tracking sets. -/
structure FetchState where
  rows : Int → Option GridRowData
  fetchedPages : Finset Int
  loadingPages : Finset Int
  errorPages : Finset Int

/-- The mount state: every row slot absent, all three sets empty. -/
def initialFetchState : FetchState :=
  { rows := fun _ => none
    fetchedPages := ∅
    loadingPages := ∅
    errorPages := ∅ }

/-- The row-store allocation `Array(totalRows).fill(undefined)`
(GridComponent.tsx lines 96-98).  `Array(n)` throws
`RangeError: Invalid array length` for a negative `n` (modelled as
`none`); otherwise the store of all-absent slots is produced. -/
def makeRowStore (totalRows : Int) : Option (Int → Option GridRowData) :=
  if totalRows < 0 then none else some (fun _ => none)

/-- Mounting `GridComponent` with a given `totalRows`: rendering
evaluates the `useState` initializer `Array(totalRows).fill(undefined)`
— which throws for negative `totalRows`, aborting the render — and on a
successful render the mount effect computes the initial visible range.
`none` models the thrown exception. -/
def gridMount (totalRows : Int) : Option VisibleRange :=
  match makeRowStore totalRows with
  | none => none
  | some _ => some (gridInitialRange totalRows)

/-- C8 (corrected).  The core has no deliberate fail-fast validation:
`pageSize` and `rowHeight` are fixed constants (20 and 60) that cannot
be misconfigured.  A negative `totalRows` does abort construction, but
only incidentally — the row-store allocation
`Array(totalRows).fill(undefined)` throws a `RangeError` — while
`totalRows = 0` mounts successfully and the initial visible-range
computation silently yields the degenerate empty range `⟨0, -1⟩` with
`endIndex < startIndex`, exactly the silent degeneration the claim said
is rejected. -/
theorem gridMount_no_failfast (totalRows : Int) (h : totalRows < 0) :
    gridMount totalRows = none ∧
    gridMount 0 = some ⟨0, -1⟩ ∧
    (gridInitialRange 0).endIndex < (gridInitialRange 0).startIndex := by
  refine ⟨?_, by decide, by decide⟩
  unfold gridMount makeRowStore
  rw [if_pos h]

/-- C8 witness: the aborted construction at `totalRows = -5` and the
silently degenerate mount at `totalRows = 0`. -/
theorem gridMount_no_failfast_witness :
    gridMount (-5) = none ∧
    gridMount 0 = some ⟨0, -1⟩ ∧
    (gridInitialRange 0).endIndex < (gridInitialRange 0).startIndex :=
  gridMount_no_failfast (-5) (by decide)

/-- The row-store merge performed in the fetch `.then` handler
(GridComponent.tsx lines 189-198): row `i` of the fetched page lands at
global index `pageIndex * pageSize + i`, clipped at `totalRows`. -/
def mergeRows (totalRows pageSize pageIndex : Int) (data : List GridRowData)
    (rows : Int → Option GridRowData) : Int → Option GridRowData :=
  fun g =>
    if pageIndex * pageSize ≤ g ∧ g < totalRows then
      match data.get? (g - pageIndex * pageSize).toNat with
      | some row => some row
      | none => rows g
    else rows g

/-- Issuing a fetch: `setLoadingPages(prev => new Set(prev).add(pageIndex))`
(GridComponent.tsx line 183). -/
def issuePage (s : FetchState) (p : Int) : FetchState :=
  { s with loadingPages := insert p s.loadingPages }

/-- Fetch success: the `.then` handler merges the rows and adds the page
to `fetchedPages`; its `.finally` removes it from `loadingPages`
(GridComponent.tsx lines 187-202, 208-215).  The two promise callbacks
run in consecutive microtasks with no render in between, so the pair is
modelled as one observable transition. -/
def succeedPage (totalRows pageSize : Int) (s : FetchState) (p : Int)
    (data : List GridRowData) : FetchState :=
  { s with
    rows := mergeRows totalRows pageSize p data s.rows
    fetchedPages := insert p s.fetchedPages
    loadingPages := s.loadingPages.erase p }

/-- Fetch failure: the `.catch` handler adds the page to `errorPages`;
its `.finally` removes it from `loadingPages` (lines 203-215).
The row store is untouched. -/
def failPage (s : FetchState) (p : Int) : FetchState :=
  { s with
    errorPages := insert p s.errorPages
    loadingPages := s.loadingPages.erase p }

/-- `retryPage` (GridComponent.tsx lines 228-234): delete the page from
`errorPages`; nothing else happens — in particular no fetch is issued. -/
def retryPage (s : FetchState) (p : Int) : FetchState :=
  { s with errorPages := s.errorPages.erase p }

/-- The states reachable by the fetch-state machine.  A fetch is issued
only for a page passing the skip check of the effect (not fetched,
loading or errored — lines 174-180); a completion (success or failure)
exists only for an outstanding fetch, i.e. a page in `loadingPages`;
retry may be clicked at any time. -/
inductive Reachable (totalRows pageSize : Int) : FetchState → Prop
  | init : Reachable totalRows pageSize initialFetchState
  | issue {s : FetchState} {p : Int} :
      Reachable totalRows pageSize s →
      p ∉ s.fetchedPages → p ∉ s.loadingPages → p ∉ s.errorPages →
      Reachable totalRows pageSize (issuePage s p)
  | succeed {s : FetchState} {p : Int} {data : List GridRowData} :
      Reachable totalRows pageSize s → p ∈ s.loadingPages →
      Reachable totalRows pageSize (succeedPage totalRows pageSize s p data)
  | fail {s : FetchState} {p : Int} :
      Reachable totalRows pageSize s → p ∈ s.loadingPages →
      Reachable totalRows pageSize (failPage s p)
  | retry {s : FetchState} {p : Int} :
      Reachable totalRows pageSize s →
      Reachable totalRows pageSize (retryPage s p)

/-- In every reachable state the three tracking sets are pairwise
disjoint: a page is in at most one of them. -/
lemma reachable_disjoint {totalRows pageSize : Int} {s : FetchState}
    (h : Reachable totalRows pageSize s) (p : Int) :
    (p ∈ s.loadingPages → p ∉ s.fetchedPages ∧ p ∉ s.errorPages) ∧
    (p ∈ s.fetchedPages → p ∉ s.errorPages) := by
  induction h with
  | init => simp [initialFetchState]
  | issue hr hf hl he ih =>
    simp only [issuePage, Finset.mem_insert] at *
    rcases ih with ⟨ih1, ih2⟩
    constructor
    · rintro (rfl | hp)
      · exact ⟨hf, he⟩
      · exact ih1 hp
    · exact ih2
  | succeed hr hl ih =>
    simp only [succeedPage, Finset.mem_insert, Finset.mem_erase] at *
    rcases ih with ⟨ih1, ih2⟩
    constructor
    · rintro ⟨hne, hp⟩
      exact ⟨fun hor => hor.elim hne (fun hf => (ih1 hp).1 hf), (ih1 hp).2⟩
    · rintro (rfl | hf)
      · exact (ih1 hl).2
      · exact ih2 hf
  | fail hr hl ih =>
    simp only [failPage, Finset.mem_insert, Finset.mem_erase] at *
    rcases ih with ⟨ih1, ih2⟩
    constructor
    · rintro ⟨hne, hp⟩
      exact ⟨(ih1 hp).1, fun hor => hor.elim hne (fun he => (ih1 hp).2 he)⟩
    · intro hf
      rintro (rfl | he)
      · exact (ih1 hl).1 hf
      · exact ih2 hf he
  | retry hr ih =>
    simp only [retryPage, Finset.mem_erase] at *
    rcases ih with ⟨ih1, ih2⟩
    constructor
    · intro hp
      exact ⟨(ih1 hp).1, fun hand => (ih1 hp).2 hand.2⟩
    · intro hf
      exact fun hand => ih2 hf hand.2

/-- C6 (confirmed).  In every reachable state of the fetch-state machine
a page index belongs to at most one of `loadingPages`, `fetchedPages`,
`errorPages`; a page in none of them is the implicit `unrequested`
default. -/
theorem fetchState_at_most_one (totalRows pageSize : Int) (s : FetchState) (p : Int)
    (h : Reachable totalRows pageSize s) :
    (p ∈ s.loadingPages → p ∉ s.fetchedPages ∧ p ∉ s.errorPages) ∧
    (p ∈ s.fetchedPages → p ∉ s.errorPages) :=
  reachable_disjoint h p

/-- C6 witness: the invariant at the concrete reachable state obtained
by issuing page `0` and completing it successfully. -/
theorem fetchState_at_most_one_witness :
    ((0 : Int) ∈ (succeedPage 1000 20 (issuePage initialFetchState 0) 0 []).loadingPages →
      (0 : Int) ∉ (succeedPage 1000 20 (issuePage initialFetchState 0) 0 []).fetchedPages ∧
      (0 : Int) ∉ (succeedPage 1000 20 (issuePage initialFetchState 0) 0 []).errorPages) ∧
    ((0 : Int) ∈ (succeedPage 1000 20 (issuePage initialFetchState 0) 0 []).fetchedPages →
      (0 : Int) ∉ (succeedPage 1000 20 (issuePage initialFetchState 0) 0 []).errorPages) :=
  fetchState_at_most_one 1000 20 _ 0
    (Reachable.succeed (Reachable.issue Reachable.init (by decide) (by decide) (by decide))
      (by decide))

/-- The priority sort at the top of the fetch effect
(GridComponent.tsx lines 166-170): `Array.from(requiredPages).sort` by
ascending `getPagePriority` (JS sort is stable; modelled by a stable
merge sort). -/
def sortedRequiredPages (vr : VisibleRange) (pageSize : Int) (required : List Int) :
    List Int :=
  required.mergeSort
    (fun a b => decide (getPagePriority vr pageSize a ≤ getPagePriority vr pageSize b))

/-- One run of the fetch effect (GridComponent.tsx lines 164-216) over a
snapshot of the three sets: walk the priority-sorted required pages,
skip any page already fetched / loading / errored, and mark the rest as
loading.  Returns the list of issued fetches (in issue order) and the
resulting `loadingPages` set. -/
def fetchPass (vr : VisibleRange) (pageSize : Int)
    (fetchedPages loadingPages errorPages : Finset Int) (required : List Int) :
    List Int × Finset Int :=
  let sorted := sortedRequiredPages vr pageSize required
  let issued := sorted.filter
    (fun p => decide (p ∉ fetchedPages ∧ p ∉ loadingPages ∧ p ∉ errorPages))
  (issued, issued.foldl (fun acc p => insert p acc) loadingPages)

lemma mem_foldl_insert (l : List Int) :
    ∀ (s : Finset Int) (a : Int),
      a ∈ l.foldl (fun acc p => insert p acc) s ↔ a ∈ s ∨ a ∈ l := by
  induction l with
  | nil => intro s a; simp
  | cons x xs ih =>
    intro s a
    rw [List.foldl_cons, ih]
    simp [Finset.mem_insert]
    tauto

lemma mem_fetchPass_issued {vr : VisibleRange} {pageSize : Int}
    {F L E : Finset Int} {required : List Int} {a : Int} :
    a ∈ (fetchPass vr pageSize F L E required).1 ↔
      a ∈ required ∧ a ∉ F ∧ a ∉ L ∧ a ∉ E := by
  unfold fetchPass sortedRequiredPages
  simp only [List.mem_filter, List.mem_mergeSort, decide_eq_true_eq]

/-- C5 (confirmed).  A page in `loadingPages` is never re-issued: the
pass skips it; a pass issues each page at most once; and re-running the
pass with the same required set against the post-pass state issues
nothing at all, so at most one fetch per page is ever outstanding. -/
theorem fetchPass_no_duplicate (vr : VisibleRange) (pageSize : Int)
    (F L E : Finset Int) (required : List Int) (p : Int)
    (hreq : required.Nodup) (hp : p ∈ L) :
    p ∉ (fetchPass vr pageSize F L E required).1 ∧
    (fetchPass vr pageSize F L E required).1.Nodup ∧
    (fetchPass vr pageSize F (fetchPass vr pageSize F L E required).2 E required).1
      = [] := by
  refine ⟨?_, ?_, ?_⟩
  · intro hmem
    exact (mem_fetchPass_issued.mp hmem).2.2.1 hp
  · exact (((List.mergeSort_perm required _).nodup_iff).mpr hreq).filter _
  · show (sortedRequiredPages vr pageSize required).filter _ = []
    rw [List.filter_eq_nil_iff]
    intro a ha
    simp only [decide_eq_true_eq]
    rw [sortedRequiredPages, List.mem_mergeSort] at ha
    intro hcontra
    rcases hcontra with ⟨haF, haL2, haE⟩
    apply haL2
    show a ∈ (fetchPass vr pageSize F L E required).1.foldl (fun acc p => insert p acc) L
    rw [mem_foldl_insert]
    by_cases haL : a ∈ L
    · exact Or.inl haL
    · exact Or.inr (mem_fetchPass_issued.mpr ⟨ha, haF, haL, haE⟩)

/-- C5 witness: a concrete pass with page `3` outstanding. -/
theorem fetchPass_no_duplicate_witness :
    (3 : Int) ∉ (fetchPass ⟨0, 12⟩ 20 {5} {3} ∅ [0, 3, 5]).1 ∧
    (fetchPass ⟨0, 12⟩ 20 {5} {3} ∅ [0, 3, 5]).1.Nodup ∧
    (fetchPass ⟨0, 12⟩ 20 {5} (fetchPass ⟨0, 12⟩ 20 {5} {3} ∅ [0, 3, 5]).2 ∅
      [0, 3, 5]).1 = [] :=
  fetchPass_no_duplicate ⟨0, 12⟩ 20 {5} {3} ∅ [0, 3, 5] 3 (by decide) (by decide)

/-- C7 (confirmed).  When the fetch for page `p` rejects, the row store
is untouched, `p` moves to `errorPages` and leaves `loadingPages`, and
every other page's membership in each set is unchanged; `retryPage p`
only erases `p` from `errorPages` (rows, fetched and loading sets are
identical — no fetch is issued by it); and a subsequent fetch pass whose
required set still contains `p` issues exactly one new fetch for `p`. -/
theorem errorPath_retry_refetch (totalRows pageSize : Int) (s : FetchState)
    (p q : Int) (vr : VisibleRange) (required : List Int)
    (hreach : Reachable totalRows pageSize s) (hp : p ∈ s.loadingPages)
    (hq : q ≠ p) (hreq : required.Nodup) (hpreq : p ∈ required) :
    (failPage s p).rows = s.rows ∧
    p ∈ (failPage s p).errorPages ∧
    p ∉ (failPage s p).loadingPages ∧
    (failPage s p).fetchedPages = s.fetchedPages ∧
    ((q ∈ (failPage s p).loadingPages ↔ q ∈ s.loadingPages) ∧
      (q ∈ (failPage s p).errorPages ↔ q ∈ s.errorPages) ∧
      (q ∈ (failPage s p).fetchedPages ↔ q ∈ s.fetchedPages)) ∧
    ((retryPage (failPage s p) p).rows = (failPage s p).rows ∧
      (retryPage (failPage s p) p).fetchedPages = (failPage s p).fetchedPages ∧
      (retryPage (failPage s p) p).loadingPages = (failPage s p).loadingPages ∧
      (retryPage (failPage s p) p).errorPages = (failPage s p).errorPages.erase p) ∧
    (fetchPass vr pageSize (retryPage (failPage s p) p).fetchedPages
        (retryPage (failPage s p) p).loadingPages
        (retryPage (failPage s p) p).errorPages required).1.count p = 1 := by
  have hdisj := reachable_disjoint hreach p
  have hpf : p ∉ s.fetchedPages := (hdisj.1 hp).1
  refine ⟨rfl, ?_, ?_, rfl, ⟨?_, ?_, Iff.rfl⟩, ⟨rfl, rfl, rfl, rfl⟩, ?_⟩
  · simp [failPage]
  · simp [failPage]
  · simp [failPage, hq]
  · simp [failPage, hq]
  · have hmem : p ∈ (fetchPass vr pageSize (retryPage (failPage s p) p).fetchedPages
        (retryPage (failPage s p) p).loadingPages
        (retryPage (failPage s p) p).errorPages required).1 := by
      refine mem_fetchPass_issued.mpr ⟨hpreq, ?_, ?_, ?_⟩
      · exact hpf
      · simp [retryPage, failPage]
      · simp [retryPage, failPage]
    have hnd : (fetchPass vr pageSize (retryPage (failPage s p) p).fetchedPages
        (retryPage (failPage s p) p).loadingPages
        (retryPage (failPage s p) p).errorPages required).1.Nodup :=
      (((List.mergeSort_perm required _).nodup_iff).mpr hreq).filter _
    exact List.count_eq_one_of_mem hnd hmem

/-- C7 witness: page `0` issued then failed, retried, and re-planned
from the concrete required set `[0, 1]`. -/
theorem errorPath_retry_refetch_witness :
    ((failPage (issuePage initialFetchState 0) 0).rows =
      (issuePage initialFetchState 0).rows ∧
    (0 : Int) ∈ (failPage (issuePage initialFetchState 0) 0).errorPages ∧
    (0 : Int) ∉ (failPage (issuePage initialFetchState 0) 0).loadingPages ∧
    (failPage (issuePage initialFetchState 0) 0).fetchedPages =
      (issuePage initialFetchState 0).fetchedPages ∧
    (((1 : Int) ∈ (failPage (issuePage initialFetchState 0) 0).loadingPages ↔
        (1 : Int) ∈ (issuePage initialFetchState 0).loadingPages) ∧
      ((1 : Int) ∈ (failPage (issuePage initialFetchState 0) 0).errorPages ↔
        (1 : Int) ∈ (issuePage initialFetchState 0).errorPages) ∧
      ((1 : Int) ∈ (failPage (issuePage initialFetchState 0) 0).fetchedPages ↔
        (1 : Int) ∈ (issuePage initialFetchState 0).fetchedPages)) ∧
    ((retryPage (failPage (issuePage initialFetchState 0) 0) 0).rows =
        (failPage (issuePage initialFetchState 0) 0).rows ∧
      (retryPage (failPage (issuePage initialFetchState 0) 0) 0).fetchedPages =
        (failPage (issuePage initialFetchState 0) 0).fetchedPages ∧
      (retryPage (failPage (issuePage initialFetchState 0) 0) 0).loadingPages =
        (failPage (issuePage initialFetchState 0) 0).loadingPages ∧
      (retryPage (failPage (issuePage initialFetchState 0) 0) 0).errorPages =
        (failPage (issuePage initialFetchState 0) 0).errorPages.erase 0) ∧
    (fetchPass ⟨0, 12⟩ 20
        (retryPage (failPage (issuePage initialFetchState 0) 0) 0).fetchedPages
        (retryPage (failPage (issuePage initialFetchState 0) 0) 0).loadingPages
        (retryPage (failPage (issuePage initialFetchState 0) 0) 0).errorPages
        [0, 1]).1.count 0 = 1) :=
  errorPath_retry_refetch 1000 20 (issuePage initialFetchState 0) 0 1 ⟨0, 12⟩ [0, 1]
    (Reachable.issue Reachable.init (by decide) (by decide) (by decide))
    (by decide) (by decide) (by decide) (by decide)

/-- The `GridNode` decorator node: fields `__gridData` and `__totalRows`
(GridNode source lines 35-37). -/
structure GridNode where
  gridData : GridData
  totalRows : Int

/-- The `GridNode` constructor called with a single argument: the TS
signature is `constructor(gridData, totalRows = 1000, key?)`, so the
omitted `totalRows` takes the default `1000` (GridNode source lines 47-51). -/
def GridNode.make (gridData : GridData) : GridNode :=
  { gridData := gridData, totalRows := 1000 }

/-- `SerializedGridNode`: the persisted record carries only `gridData`
(plus constant `type`/`version` tags, irrelevant here). -/
structure SerializedGridNode where
  gridData : GridData

/-- `GridNode.exportJSON` (GridNode source lines 73-80). -/
def GridNode.exportJSON (n : GridNode) : SerializedGridNode :=
  { gridData := n.gridData }

/-- `GridNode.importJSON` (GridNode source lines 82-84):
`new GridNode(serializedNode.gridData)` — the constructor is called
without `totalRows`, so the default `1000` is used. -/
def GridNode.importJSON (s : SerializedGridNode) : GridNode :=
  GridNode.make s.gridData

/-- C10 (confirmed).  The serialization round trip preserves the dataset
but resets the row count: for every node,
`importJSON(exportJSON(node))` has the original `__gridData` and
`__totalRows = 1000` (the constructor default), whatever the original
`__totalRows` and whatever the dataset length. -/
theorem gridNode_roundtrip (n : GridNode) :
    (GridNode.importJSON (GridNode.exportJSON n)).gridData = n.gridData ∧
    (GridNode.importJSON (GridNode.exportJSON n)).totalRows = 1000 :=
  ⟨rfl, rfl⟩

/-- The mutable refs of `useThrottle` (GridComponent.tsx lines 253-254):
`lastRun` (initially `0`) and the pending deferred call, modelled as its
scheduled fire time paired with its argument. -/
structure ThrottleState where
  lastRun : Int
  pending : Option (Int × Int)
  deriving DecidableEq, Repr

/-- The throttle state at mount: `lastRun.current = 0`, no timeout. -/
def throttleInit : ThrottleState := { lastRun := 0, pending := none }

/-- Deliver the pending `setTimeout` callback if its scheduled time has
arrived (GridComponent.tsx lines 270-273): the callback invokes the
handler with the stored argument and sets `lastRun` to the current time,
which for a punctual timer is its scheduled fire time.  A timer due at
time `now` runs before an event arriving at `now`. -/
def fireDue (s : ThrottleState) (now : Int) : ThrottleState × List (Int × Int) :=
  match s.pending with
  | some fa => if fa.1 ≤ now then ({ lastRun := fa.1, pending := none }, [fa]) else (s, [])
  | none => (s, [])

/-- One invocation of the throttled function at time `now` with argument
`arg` (GridComponent.tsx lines 256-277): first any due timer fires; then
if at least `delay` has elapsed since `lastRun` the handler runs
immediately, else the previous timeout is cancelled and a new one is
scheduled at `lastRun + delay` (the code computes the remaining wait
`delay - (now - lastRun)`).  The immediate branch does not cancel a
pending timeout, exactly as in the source. -/
def throttleCall (delay : Int) (s : ThrottleState) (now arg : Int) :
    ThrottleState × List (Int × Int) :=
  if delay ≤ now - (fireDue s now).1.lastRun then
    ({ lastRun := now, pending := (fireDue s now).1.pending },
      (fireDue s now).2 ++ [(now, arg)])
  else
    ({ lastRun := (fireDue s now).1.lastRun,
       pending := some ((fireDue s now).1.lastRun + delay, arg) },
      (fireDue s now).2)

/-- Process a burst of timestamped calls, accumulating handler firings. -/
def throttleRunAux (delay : Int) :
    ThrottleState → List (Int × Int) → List (Int × Int) →
      ThrottleState × List (Int × Int)
  | s, acc, [] => (s, acc)
  | s, acc, e :: es =>
    throttleRunAux delay (throttleCall delay s e.1 e.2).1
      (acc ++ (throttleCall delay s e.1 e.2).2) es

/-- All handler firings produced by a burst of calls (given as
`(time, scrollOffset)` pairs with strictly increasing times), including
the trailing deferred firing left pending after the burst, which fires
at its scheduled time since nothing cancels it. -/
def throttleRun (delay : Int) (events : List (Int × Int)) : List (Int × Int) :=
  match throttleRunAux delay throttleInit [] events with
  | (s, fired) =>
    match s.pending with
    | some fa => fired ++ [fa]
    | none => fired

/-- The last event time of a burst, with default `t` for the empty burst. -/
def tendOf (es : List (Int × Int)) (t : Int) : Int :=
  es.foldl (fun _ e => e.1) t

lemma tendOf_cons (e : Int × Int) (es : List (Int × Int)) (t : Int) :
    tendOf (e :: es) t = tendOf es e.1 := rfl

lemma tendOf_mono {es : List (Int × Int)} {x y : Int} (h : x ≤ y) :
    tendOf es x ≤ tendOf es y := by
  cases es with
  | nil => exact h
  | cons e es => exact le_rfl

lemma tendOf_eq_getLastD (es : List (Int × Int)) :
    ∀ d : Int × Int, tendOf es d.1 = (es.getLastD d).1 := by
  induction es with
  | nil => intro d; rfl
  | cons e es ih =>
    intro d
    rw [tendOf_cons, List.getLastD_cons]
    exact ih e

lemma throttleRunAux_acc (T : Int) :
    ∀ (es : List (Int × Int)) (s : ThrottleState) (acc : List (Int × Int)),
      throttleRunAux T s acc es =
        ((throttleRunAux T s [] es).1, acc ++ (throttleRunAux T s [] es).2) := by
  intro es
  induction es with
  | nil =>
    intro s acc
    simp [throttleRunAux]
  | cons e es ih =>
    intro s acc
    simp only [throttleRunAux]
    rw [ih _ (acc ++ _), ih _ ([] ++ _)]
    simp

lemma throttleRunAux_append (T : Int) :
    ∀ (es1 es2 : List (Int × Int)) (s : ThrottleState) (acc : List (Int × Int)),
      throttleRunAux T s acc (es1 ++ es2) =
        throttleRunAux T (throttleRunAux T s acc es1).1
          (throttleRunAux T s acc es1).2 es2 := by
  intro es1
  induction es1 with
  | nil => intro es2 s acc; rfl
  | cons e es1 ih =>
    intro es2 s acc
    simp only [List.cons_append, throttleRunAux]
    exact ih es2 _ _

/-- Invariant of a throttle run: every firing advances `lastRun` by at
least the delay (so the firing count is bounded by the elapsed time),
`lastRun` never exceeds the last call time seen, and a pending timeout
is always scheduled exactly at `lastRun + delay`. -/
lemma throttleRunAux_spec (T : Int) (hT : 0 < T) :
    ∀ (es : List (Int × Int)) (s : ThrottleState),
      List.Pairwise (fun a b : Int × Int => a.1 < b.1) es →
      (∀ e ∈ es, s.lastRun < e.1) →
      (∀ fa ∈ s.pending, fa.1 = s.lastRun + T) →
      s.lastRun + (throttleRunAux T s [] es).2.length * T ≤
        (throttleRunAux T s [] es).1.lastRun ∧
      (throttleRunAux T s [] es).1.lastRun ≤ tendOf es s.lastRun ∧
      (∀ fa ∈ (throttleRunAux T s [] es).1.pending,
        fa.1 = (throttleRunAux T s [] es).1.lastRun + T) := by
  intro es
  induction es with
  | nil =>
    intro s _ _ hpend
    refine ⟨by simp [throttleRunAux], by simp [throttleRunAux, tendOf], ?_⟩
    simpa [throttleRunAux] using hpend
  | cons e es ih =>
    intro s hpw hpos hpend
    have hhead : ∀ a ∈ es, e.1 < a.1 := (List.pairwise_cons.mp hpw).1
    have hpw' : List.Pairwise (fun a b : Int × Int => a.1 < b.1) es :=
      (List.pairwise_cons.mp hpw).2
    have hse : s.lastRun < e.1 := hpos e (by simp)
    rw [show throttleRunAux T s [] (e :: es) =
        throttleRunAux T (throttleCall T s e.1 e.2).1
          ([] ++ (throttleCall T s e.1 e.2).2) es from rfl,
      throttleRunAux_acc]
    rcases hsp : s.pending with _ | ⟨ft, b⟩
    · have hfd : fireDue s e.1 = (s, []) := by simp [fireDue, hsp]
      by_cases hbr : T ≤ e.1 - s.lastRun
      · have hcall : throttleCall T s e.1 e.2 =
            ({ lastRun := e.1, pending := none }, [(e.1, e.2)]) := by
          rw [throttleCall, hfd]
          simp [hbr, hsp]
        rw [hcall]
        obtain ⟨ih1, ih2, ih3⟩ :=
          ih { lastRun := e.1, pending := none } hpw' (fun a ha => hhead a ha) (by simp)
        refine ⟨?_, ?_, ih3⟩
        · simp only [List.length_append, List.length_cons, List.length_nil]
          have hlin : ((0 + 1 : Nat) : Int) +
              ((throttleRunAux T { lastRun := e.1, pending := none } [] es).2.length : Int)
              = 1 + (throttleRunAux T { lastRun := e.1, pending := none } [] es).2.length :=
            by push_cast; ring
          push_cast
          nlinarith [ih1]
        · rw [tendOf_cons]
          exact ih2
      · have hcall : throttleCall T s e.1 e.2 =
            ({ lastRun := s.lastRun, pending := some (s.lastRun + T, e.2) }, []) := by
          rw [throttleCall, hfd]
          simp [hbr]
        rw [hcall]
        obtain ⟨ih1, ih2, ih3⟩ :=
          ih { lastRun := s.lastRun, pending := some (s.lastRun + T, e.2) } hpw'
            (fun a ha => lt_trans hse (hhead a ha)) (by simp)
        refine ⟨by simpa using ih1, ?_, ih3⟩
        · rw [tendOf_cons]
          exact le_trans ih2 (tendOf_mono hse.le)
    · have hft : ft = s.lastRun + T := hpend (ft, b) (by simp [hsp])
      by_cases hfire : ft ≤ e.1
      · have hfd : fireDue s e.1 = ({ lastRun := ft, pending := none }, [(ft, b)]) := by
          simp [fireDue, hsp, hfire]
        by_cases hbr : T ≤ e.1 - ft
        · have hcall : throttleCall T s e.1 e.2 =
              ({ lastRun := e.1, pending := none }, [(ft, b), (e.1, e.2)]) := by
            rw [throttleCall, hfd]
            simp [hbr]
          rw [hcall]
          obtain ⟨ih1, ih2, ih3⟩ :=
            ih { lastRun := e.1, pending := none } hpw' (fun a ha => hhead a ha) (by simp)
          refine ⟨?_, ?_, ih3⟩
          · simp only [List.length_append, List.length_cons, List.length_nil]
            push_cast
            nlinarith [ih1]
          · rw [tendOf_cons]
            exact ih2
        · have hcall : throttleCall T s e.1 e.2 =
              ({ lastRun := ft, pending := some (ft + T, e.2) }, [(ft, b)]) := by
            rw [throttleCall, hfd]
            simp [hbr]
          rw [hcall]
          obtain ⟨ih1, ih2, ih3⟩ :=
            ih { lastRun := ft, pending := some (ft + T, e.2) } hpw'
              (fun a ha => lt_of_le_of_lt hfire (hhead a ha)) (by simp)
          refine ⟨?_, ?_, ih3⟩
          · simp only [List.length_append, List.length_cons, List.length_nil]
            push_cast
            nlinarith [ih1]
          · rw [tendOf_cons]
            exact le_trans ih2 (tendOf_mono hfire)
      · have hfd : fireDue s e.1 = (s, []) := by simp [fireDue, hsp, hfire]
        have hbr : ¬ T ≤ e.1 - s.lastRun := by omega
        have hcall : throttleCall T s e.1 e.2 =
            ({ lastRun := s.lastRun, pending := some (s.lastRun + T, e.2) }, []) := by
          rw [throttleCall, hfd]
          simp [hbr]
        rw [hcall]
        obtain ⟨ih1, ih2, ih3⟩ :=
          ih { lastRun := s.lastRun, pending := some (s.lastRun + T, e.2) } hpw'
            (fun a ha => lt_trans hse (hhead a ha)) (by simp)
        refine ⟨by simpa using ih1, ?_, ih3⟩
        · rw [tendOf_cons]
          exact le_trans ih2 (tendOf_mono hse.le)

/-- The trailing deferred firing left by a state, as a list. -/
def flushList (s : ThrottleState) : List (Int × Int) :=
  match s.pending with
  | some fa => [fa]
  | none => []

lemma throttleRun_eq (T : Int) (events : List (Int × Int)) :
    throttleRun T events =
      (throttleRunAux T throttleInit [] events).2 ++
        flushList (throttleRunAux T throttleInit [] events).1 := by
  unfold throttleRun flushList
  rcases hp : (throttleRunAux T throttleInit [] events).1.pending with _ | fa <;>
    simp [hp]

/-- Whatever the state before it, the last call of a burst either fires
immediately as the final firing or installs the trailing deferred
firing; in both cases the final fired argument is the last call's. -/
lemma throttleCall_last (T : Int) (hT : 0 < T) (σ : ThrottleState) (tN aN : Int)
    (hpend : ∀ fa ∈ σ.pending, fa.1 = σ.lastRun + T) :
    (((throttleCall T σ tN aN).2 ++
        flushList (throttleCall T σ tN aN).1).map Prod.snd).getLast? = some aN := by
  rcases hsp : σ.pending with _ | ⟨ft, b⟩
  · have hfd : fireDue σ tN = (σ, []) := by simp [fireDue, hsp]
    by_cases hbr : T ≤ tN - σ.lastRun
    · rw [throttleCall, hfd]
      simp [hbr, hsp, flushList]
    · rw [throttleCall, hfd]
      simp [hbr, flushList]
  · have hft : ft = σ.lastRun + T := hpend (ft, b) (by simp [hsp])
    by_cases hfire : ft ≤ tN
    · have hfd : fireDue σ tN = ({ lastRun := ft, pending := none }, [(ft, b)]) := by
        simp [fireDue, hsp, hfire]
      by_cases hbr : T ≤ tN - ft
      · rw [throttleCall, hfd]
        simp [hbr, flushList]
      · rw [throttleCall, hfd]
        simp [hbr, flushList]
    · have hfd : fireDue σ tN = (σ, []) := by simp [fireDue, hsp, hfire]
      have hbr : ¬ T ≤ tN - σ.lastRun := by omega
      rw [throttleCall, hfd]
      simp [hbr, flushList]

/-- C4 (corrected).  For a burst of strictly time-ordered scroll events
starting at least one interval after mount, the throttled handler fires
at most `floor(duration / T) + 2` times — one more than the claimed
`ceil(duration / T) + 1` when the duration is an exact multiple of `T` —
and the final firing always carries the last event's scroll offset. -/
theorem useThrottle_burst (T t1 a1 : Int) (rest : List (Int × Int))
    (hT : 0 < T) (hfirst : T ≤ t1)
    (hpw : List.Pairwise (fun a b : Int × Int => a.1 < b.1) ((t1, a1) :: rest)) :
    ((throttleRun T ((t1, a1) :: rest)).length : Int) ≤
      ((rest.getLastD (t1, a1)).1 - t1) / T + 2 ∧
    ((throttleRun T ((t1, a1) :: rest)).map Prod.snd).getLast? =
      some (rest.getLastD (t1, a1)).2 := by
  have hhead : ∀ a ∈ rest, t1 < a.1 := by
    have := (List.pairwise_cons.mp hpw).1
    exact fun a ha => this a ha
  have hpw' : List.Pairwise (fun a b : Int × Int => a.1 < b.1) rest :=
    (List.pairwise_cons.mp hpw).2
  have hcall1 : throttleCall T throttleInit t1 a1 =
      ({ lastRun := t1, pending := none }, [(t1, a1)]) := by
    have hfd : fireDue throttleInit t1 = (throttleInit, []) := by
      simp [fireDue, throttleInit]
    rw [throttleCall, hfd]
    simp [throttleInit]
    omega
  have haux : throttleRunAux T throttleInit [] ((t1, a1) :: rest) =
      ((throttleRunAux T { lastRun := t1, pending := none } [] rest).1,
        (t1, a1) :: (throttleRunAux T { lastRun := t1, pending := none } [] rest).2) := by
    rw [show throttleRunAux T throttleInit [] ((t1, a1) :: rest) =
        throttleRunAux T (throttleCall T throttleInit t1 a1).1
          ([] ++ (throttleCall T throttleInit t1 a1).2) rest from rfl,
      hcall1, throttleRunAux_acc]
    simp
  obtain ⟨h1, h2, h3⟩ :=
    throttleRunAux_spec T hT rest { lastRun := t1, pending := none } hpw'
      (fun a ha => hhead a ha) (by simp)
  constructor
  · -- firing-count bound
    rw [throttleRun_eq, haux]
    have hlenle : ((throttleRunAux T { lastRun := t1, pending := none } [] rest).2.length
        : Int) ≤ (tendOf rest t1 - t1) / T := by
      rw [Int.le_ediv_iff_mul_le hT]
      simp only at h1 h2
      linarith [h1, h2]
    have htend : tendOf rest t1 = (rest.getLastD (t1, a1)).1 :=
      tendOf_eq_getLastD rest (t1, a1)
    rw [htend] at hlenle
    rcases hp : (throttleRunAux T { lastRun := t1, pending := none } [] rest).1.pending
      with _ | fa
    · simp only [flushList, hp, List.append_nil, List.length_cons]
      push_cast
      omega
    · simp only [flushList, hp, List.length_append, List.length_cons, List.length_nil]
      push_cast
      omega
  · -- trailing firing carries the last offset
    rcases List.eq_nil_or_concat rest with rfl | ⟨L, eN, rfl⟩
    · rw [throttleRun_eq, haux]
      have : (throttleRunAux T { lastRun := t1, pending := none } [] ([] : List (Int × Int)))
          = ({ lastRun := t1, pending := none }, []) := rfl
      rw [this]
      simp [flushList]
    · rw [List.concat_eq_append] at *
      have hLsub : List.Pairwise (fun a b : Int × Int => a.1 < b.1) L :=
        hpw'.sublist (List.sublist_append_left L [eN])
      have hLpos : ∀ a ∈ L, t1 < a.1 := fun a ha => hhead a (by simp [ha])
      obtain ⟨g1, g2, g3⟩ :=
        throttleRunAux_spec T hT L { lastRun := t1, pending := none } hLsub hLpos (by simp)
      have hsplit : throttleRun T ((t1, a1) :: (L ++ [eN])) =
          ((t1, a1) :: (throttleRunAux T { lastRun := t1, pending := none } [] L).2) ++
            ((throttleCall T
                (throttleRunAux T { lastRun := t1, pending := none } [] L).1
                eN.1 eN.2).2 ++
              flushList (throttleCall T
                (throttleRunAux T { lastRun := t1, pending := none } [] L).1
                eN.1 eN.2).1) := by
        rw [throttleRun_eq, haux]
        rw [show throttleRunAux T { lastRun := t1, pending := none } [] (L ++ [eN]) =
            throttleRunAux T
              (throttleRunAux T { lastRun := t1, pending := none } [] L).1
              (throttleRunAux T { lastRun := t1, pending := none } [] L).2 [eN]
            from throttleRunAux_append T L [eN] _ _]
        rw [show ∀ (σ : ThrottleState) (acc : List (Int × Int)),
            throttleRunAux T σ acc [eN] =
              ((throttleCall T σ eN.1 eN.2).1, acc ++ (throttleCall T σ eN.1 eN.2).2)
            from fun σ acc => rfl]
        simp [List.append_assoc]
      rw [hsplit, List.getLastD_concat, List.map_append, List.getLast?_append]
      have hlast :=
        throttleCall_last T hT
          (throttleRunAux T { lastRun := t1, pending := none } [] L).1 eN.1 eN.2 g3
      rw [hlast]
      rfl

/-- C4 witness: a one-event burst at `t = 100` with the code's interval
`T = 100`; the burst satisfies every hypothesis and both conclusions. -/
theorem useThrottle_burst_witness :
    ((throttleRun 100 ((100, 7) :: ([] : List (Int × Int)))).length : Int) ≤
      ((([] : List (Int × Int)).getLastD (100, 7)).1 - 100) / 100 + 2 ∧
    ((throttleRun 100 ((100, 7) :: ([] : List (Int × Int)))).map Prod.snd).getLast? =
      some (([] : List (Int × Int)).getLastD (100, 7)).2 :=
  useThrottle_burst 100 100 7 [] (by decide) (by decide) (by decide)

/-- C4 counterexample: the burst `(100, 10), (150, 20), (200, 30)` with
the code's interval `T = 100` (duration `100` ms) makes the handler fire
three times — at `100` (immediate), `200` (deferred firing of the
second event, due exactly when the third event arrives) and `300`
(trailing) — exceeding the claimed bound
`ceil(duration / T) + 1 = 2`.  The burst satisfies the claim's
hypotheses: positive interval, strictly increasing event times. -/
theorem useThrottle_burst_counterexample :
    (0 : Int) < scrollThrottleDelay ∧
    List.Pairwise (fun a b : Int × Int => a.1 < b.1) [(100, 10), (150, 20), (200, 30)] ∧
    throttleRun scrollThrottleDelay [(100, 10), (150, 20), (200, 30)] =
      [(100, 10), (200, 20), (300, 30)] ∧
    ¬ (((throttleRun scrollThrottleDelay [(100, 10), (150, 20), (200, 30)]).length : Int) ≤
        jsCeilDiv ((200 : Int) - 100) scrollThrottleDelay + 1) := by
  refine ⟨by decide, by decide, by decide, by decide⟩

end Grid
